import Mathlib

/-!
Verification of the trufflify image-morphing program (`src/main.cpp`) against its
natural-language specification.

The C++ code is shallowly embedded: `sf::Color` becomes a structure of natural
numbers (8-bit channels), `sf::Vector2f` and all `float` arithmetic are modelled
over `ℚ` (exact real arithmetic; IEEE rounding is abstracted away), and the
global `std::mt19937` random generator is modelled as an explicit tape of draws.
The control flow of `Trufflifier::initParticles` never depends on a drawn random
value (which pixels produce particles is decided by alpha tests and the stride
alone), so the stream of draws consumed by one source pixel's particle is
faithfully modelled as a record of draws indexed by that pixel's coordinates.

The Mutation Optimizer engine described in the specification is not part of
`src/main.cpp`; it is modelled from the specification text where needed, with
each such definition marked `Modelled from the spec:` in its doc comment.
-/

/-- The `sf::Color` type: four 8-bit channels. The embedding uses `ℕ` for each channel. -/
structure Color where
  r : Nat
  g : Nat
  b : Nat
  a : Nat
deriving DecidableEq

/-- The value produced by `sf::Color`'s default constructor: opaque black. -/
def sfColorDefault : Color := ⟨0, 0, 0, 255⟩

/-- The `sf::Vector2f` type, with `float` modelled as `ℚ`. -/
structure Vec2 where
  x : ℚ
  y : ℚ
deriving DecidableEq

/-- The value produced by `sf::Vector2f`'s default constructor. -/
def vec2Zero : Vec2 := ⟨0, 0⟩

/-- A loaded `sf::Image`: a fixed-size grid of RGBA pixels.  `pixel x y` is only
meaningful for `x < width` and `y < height` (the code never queries outside). -/
structure Image where
  width : Nat
  height : Nat
  pixel : Nat → Nat → Color

/-- The function `Trufflifier::colorDiff` (src/main.cpp:55-60): squared-channel color
distance over the r, g, b channels, computed in `long long` (embedded as `ℤ`). -/
def colorDiff (c1 c2 : Color) : ℤ :=
  let dr : ℤ := (c1.r : ℤ) - (c2.r : ℤ)
  let dg : ℤ := (c1.g : ℤ) - (c2.g : ℤ)
  let db : ℤ := (c1.b : ℤ) - (c2.b : ℤ)
  dr * dr + dg * dg + db * db

/-- The easing function `easeOutCubic` (src/main.cpp:25-27): `1 - (1 - x)^3`. -/
def easeOutCubic (x : ℚ) : ℚ := 1 - (1 - x) ^ 3

/-- The `Particle` record (src/main.cpp:14-22). -/
structure Particle where
  startPos : Vec2
  endPos : Vec2
  startColor : Color
  endColor : Color
  currentPos : Vec2
  currentColor : Color
  size : ℚ
deriving DecidableEq

/-- The state a default-constructed C++ `Particle` starts from (`sf::Vector2f`
and `sf::Color` default constructors; `size` is value-initialized here). -/
def particleDefault : Particle :=
  ⟨vec2Zero, vec2Zero, sfColorDefault, sfColorDefault, vec2Zero, sfColorDefault, 0⟩

/-- One entry of the Target Pixel Index (`struct TargetPixel`,
src/main.cpp:106-109): an opaque target pixel's color and display position. -/
structure TargetPixel where
  color : Color
  pos : Vec2
deriving DecidableEq

/-- The default `TargetPixel`, used as the out-of-range fallback of `getD`. -/
def targetPixelDefault : TargetPixel := ⟨sfColorDefault, vec2Zero⟩

/-- The list of stride-aligned indices `0, step, 2*step, …` below `n`:
the index sequence of a C++ loop `for (i = 0; i < n; i += step)`. -/
def strideList (n step : Nat) : List Nat :=
  (List.range ((n + step - 1) / step)).map (fun k => k * step)

/-- A row-major double loop over a grid (`y` outer, `x` inner, both advancing by
`step`), collecting the values an optional-valued body emits.  This is the shape
of both pixel loops in `Trufflifier::initParticles`. -/
def grid2D {α : Type} (w h step : Nat) (f : Nat → Nat → Option α) : List α :=
  (strideList h step).flatMap (fun y => (strideList w step).filterMap (fun x => f x y))

/-- The target display scale (src/main.cpp:66-75): 80% fit of the longest
relevant dimension, then clamped from below by `1.0f`. -/
def targetScaleOf (target : Image) (windowW windowH : Nat) : ℚ :=
  let targetAspect : ℚ := (target.width : ℚ) / (target.height : ℚ)
  let windowAspect : ℚ := (windowW : ℚ) / (windowH : ℚ)
  let s : ℚ :=
    if targetAspect > windowAspect then ((windowW : ℚ) * (4 / 5)) / (target.width : ℚ)
    else ((windowH : ℚ) * (4 / 5)) / (target.height : ℚ)
  max 1 s

/-- The offset `targetOffsetX` (src/main.cpp:77). -/
def targetOffsetXOf (target : Image) (windowW windowH : Nat) : ℚ :=
  ((windowW : ℚ) - (target.width : ℚ) * targetScaleOf target windowW windowH) / 2

/-- The offset `targetOffsetY` (src/main.cpp:78). -/
def targetOffsetYOf (target : Image) (windowW windowH : Nat) : ℚ :=
  ((windowH : ℚ) - (target.height : ℚ) * targetScaleOf target windowW windowH) / 2

/-- The pixel-skip stride (src/main.cpp:83-91).  The C++ computes
`ratio = sqrt(15000 / (inW*inH))` in `float` and sets
`step = (int)(1/ratio)` when `ratio < 1`.  In exact arithmetic
`ratio < 1 ↔ 15000 < inW*inH`, and `⌊1/ratio⌋ = ⌊sqrt(inW*inH/15000)⌋`,
which for an integer bound `k` satisfies `k ≤ sqrt(n/15000) ↔ k² ≤ ⌊n/15000⌋`,
so the truncation equals `Nat.sqrt (n / 15000)`. -/
def stepOf (input : Image) : Nat :=
  if 15000 < input.width * input.height then Nat.sqrt (input.width * input.height / 15000)
  else 1

/-- The input display scale (src/main.cpp:94-96). -/
def displayScaleOf (input : Image) (windowW windowH : Nat) : ℚ :=
  min ((windowW : ℚ) / (input.width : ℚ)) ((windowH : ℚ) / (input.height : ℚ)) * (4 / 5)

/-- The offset `inputOffsetX` (src/main.cpp:98). -/
def inputOffsetXOf (input : Image) (windowW windowH : Nat) : ℚ :=
  ((windowW : ℚ) - (input.width : ℚ) * displayScaleOf input windowW windowH) / 2

/-- The offset `inputOffsetY` (src/main.cpp:99). -/
def inputOffsetYOf (input : Image) (windowW windowH : Nat) : ℚ :=
  ((windowH : ℚ) - (input.height : ℚ) * displayScaleOf input windowW windowH) / 2

/-- The base size `baseParticleSize` (src/main.cpp:102). -/
def baseParticleSizeOf (input : Image) (windowW windowH : Nat) : ℚ :=
  max 1 (displayScaleOf input windowW windowH * (stepOf input : ℚ))

/-- The Target Pixel Index (src/main.cpp:110-120): every target pixel with
nonzero alpha, with its display position, in row-major (`y` outer) order. -/
def targetPixelsOf (target : Image) (windowW windowH : Nat) : List TargetPixel :=
  let scale := targetScaleOf target windowW windowH
  let offX := targetOffsetXOf target windowW windowH
  let offY := targetOffsetYOf target windowW windowH
  grid2D target.width target.height 1 (fun x y =>
    let c := target.pixel x y
    if 0 < c.a then some ⟨c, ⟨offX + (x : ℚ) * scale, offY + (y : ℚ) * scale⟩⟩ else none)

/-- The random draws consumed while building one particle: the `sizeDist` draw,
the 100 `distT` sample draws, and the two `jitterDist` draws (src/main.cpp:124-166). -/
structure ParticleRand where
  sizeF : ℚ
  sample : Nat → Nat
  jx : ℚ
  jy : ℚ

/-- A full random tape for the layout pass, indexed by the source pixel
coordinates of the particle consuming the draws. -/
abbrev Tape := Nat → Nat → ParticleRand

/-- The ranges guaranteed by the C++ distributions: `sizeDist(0.8f, 1.2f)`,
`distT(0, targetPixels.size()-1)` and `jitterDist(-0.4*targetScale, 0.4*targetScale)`
(src/main.cpp:124-125, 152). -/
abbrev ValidRand (tpLen : Nat) (scale : ℚ) (rd : ParticleRand) : Prop :=
  (4 / 5 ≤ rd.sizeF ∧ rd.sizeF < 6 / 5) ∧
  (∀ i, i < 100 → rd.sample i < tpLen) ∧
  (-(2 / 5 * scale) ≤ rd.jx ∧ rd.jx < 2 / 5 * scale) ∧
  (-(2 / 5 * scale) ≤ rd.jy ∧ rd.jy < 2 / 5 * scale)

/-- One iteration of the sampling loop (src/main.cpp:154-161): keep the sampled
index if it is the first sample (`minDiff == -1`) or strictly closer in color. -/
def bestMatchStep (inputCol : Color) (tps : List TargetPixel) (acc : Nat × ℤ) (idx : Nat) :
    Nat × ℤ :=
  let diff := colorDiff inputCol ((tps.getD idx targetPixelDefault).color)
  if acc.2 = -1 ∨ diff < acc.2 then (idx, diff) else acc

/-- The approximate nearest-color match (src/main.cpp:148-161): fold the
sampling loop from `bestIndex = 0`, `minDiff = -1` and return the best index. -/
def bestMatch (inputCol : Color) (tps : List TargetPixel) (samples : List Nat) : Nat :=
  (samples.foldl (bestMatchStep inputCol tps) (0, -1)).1

/-- Construction of one particle (src/main.cpp:135-169), from the source pixel
color, its display start position, `baseParticleSize`, the Target Pixel Index,
and the random draws.  Fields never assigned keep their C++ default-constructed
values (`endColor` stays `sfColorDefault` in the empty-index branch,
`currentPos` stays `vec2Zero`). -/
def mkParticle (inputCol : Color) (startP : Vec2) (baseSize : ℚ)
    (tps : List TargetPixel) (rd : ParticleRand) : Particle :=
  let size := baseSize * rd.sizeF
  if tps.isEmpty then
    { startPos := startP, endPos := startP, startColor := inputCol,
      endColor := sfColorDefault, currentPos := vec2Zero, currentColor := inputCol,
      size := size }
  else
    let samples := (List.range 100).map rd.sample
    let best := bestMatch inputCol tps samples
    let tp := tps.getD best targetPixelDefault
    { startPos := startP, endPos := ⟨tp.pos.x + rd.jx, tp.pos.y + rd.jy⟩,
      startColor := inputCol, endColor := tp.color,
      currentPos := vec2Zero, currentColor := inputCol, size := size }

/-- The layout pass `Trufflifier::initParticles` (src/main.cpp:62-174).
Iterates the source grid at stride intervals, skips fully transparent pixels,
and builds one particle per visited opaque pixel. -/
def initParticles (input target : Image) (windowW windowH : Nat) (tape : Tape) :
    List Particle :=
  let stride := stepOf input
  let displayScale := displayScaleOf input windowW windowH
  let inputOffX := inputOffsetXOf input windowW windowH
  let inputOffY := inputOffsetYOf input windowW windowH
  let baseSize := baseParticleSizeOf input windowW windowH
  let tps := targetPixelsOf target windowW windowH
  grid2D input.width input.height stride (fun x y =>
    let inputCol := input.pixel x y
    if inputCol.a = 0 then none
    else some (mkParticle inputCol
      ⟨inputOffX + (x : ℚ) * displayScale, inputOffY + (y : ℚ) * displayScale⟩
      baseSize tps (tape x y)))

/-- The stride-aligned source pixels with nonzero alpha: the pixels that emit a
particle.  Same loop shape as `initParticles`, with the coordinate as payload. -/
def strideOpaquePixels (input : Image) : List (Nat × Nat) :=
  grid2D input.width input.height (stepOf input) (fun x y =>
    if (input.pixel x y).a = 0 then none else some (x, y))

/-- One `sf::Vertex` as appended by `Trufflifier::update`. -/
structure Vertex where
  position : Vec2
  color : Color
deriving DecidableEq

/-- The mutable state `Trufflifier::update` works on: the particle list and the
vertex array (src/main.cpp:31-32). -/
structure TrufflifierState where
  particles : List Particle
  vertexArray : List Vertex
deriving DecidableEq

/-- The per-particle body of `Trufflifier::update` (src/main.cpp:181-184):
recompute `currentPos` from the eased progress and fix `currentColor` to
`startColor`. -/
def updateParticle (easedT : ℚ) (p : Particle) : Particle :=
  { p with
    currentPos := ⟨p.startPos.x + (p.endPos.x - p.startPos.x) * easedT,
                   p.startPos.y + (p.endPos.y - p.startPos.y) * easedT⟩,
    currentColor := p.startColor }

/-- The quad appended for one (already updated) particle (src/main.cpp:186-202). -/
def particleQuad (p : Particle) : List Vertex :=
  [⟨p.currentPos, p.currentColor⟩,
   ⟨⟨p.currentPos.x + p.size, p.currentPos.y⟩, p.currentColor⟩,
   ⟨⟨p.currentPos.x + p.size, p.currentPos.y + p.size⟩, p.currentColor⟩,
   ⟨⟨p.currentPos.x, p.currentPos.y + p.size⟩, p.currentColor⟩]

/-- The frame query `Trufflifier::update` (src/main.cpp:176-204): clear the vertex array,
update every particle from the eased progress value, and append its quad. -/
def update (s : TrufflifierState) (t : ℚ) : TrufflifierState :=
  let easedT := easeOutCubic t
  let ps := s.particles.map (updateParticle easedT)
  { particles := ps, vertexArray := ps.flatMap particleQuad }

/-! The target display transform (claim C5). -/

/-- A concrete 2000×1000 all-opaque target image, larger than the 800×800
window, for which the `max(1.0f, targetScale)` clamp in src/main.cpp:75 fires. -/
def wideTarget : Image := ⟨2000, 1000, fun _ _ => ⟨255, 255, 255, 255⟩⟩

/-! Concrete one-pixel scenarios. -/

/-- A 1×1 source image with a single opaque pixel. -/
def soloInput : Image := ⟨1, 1, fun _ _ => ⟨200, 100, 50, 255⟩⟩

/-- A 1×1 fully transparent target image (empty Target Pixel Index). -/
def clearTarget : Image := ⟨1, 1, fun _ _ => ⟨0, 0, 0, 0⟩⟩

/-- A 1×1 target image with a single opaque pixel. -/
def soloTarget : Image := ⟨1, 1, fun _ _ => ⟨10, 20, 30, 255⟩⟩

/-- A jitter-free draw record (size factor 1, all samples 0, zero jitter). -/
def plainRand : ParticleRand := ⟨1, fun _ => 0, 0, 0⟩

/-- The constant tape of jitter-free draws. -/
def plainTape : Tape := fun _ _ => plainRand

/-- A draw record with a nonzero x-jitter of `1` (legal for any jitter range
wider than `(-1, 1)`). -/
def jitterRand : ParticleRand := ⟨1, fun _ => 0, 1, 0⟩

/-- The constant tape of `jitterRand` draws. -/
def jitterTape : Tape := fun _ _ => jitterRand

/-- The single particle built for `soloInput` against the transparent target. -/
def soloParticle : Particle :=
  mkParticle (soloInput.pixel 0 0)
    ⟨inputOffsetXOf soloInput 800 800 + ((0 : Nat) : ℚ) * displayScaleOf soloInput 800 800,
     inputOffsetYOf soloInput 800 800 + ((0 : Nat) : ℚ) * displayScaleOf soloInput 800 800⟩
    (baseParticleSizeOf soloInput 800 800) (targetPixelsOf clearTarget 800 800)
    (plainTape 0 0)

/-! The Mutation Optimizer (claim C1).

The Mutation Optimizer engine is not present in `src/main.cpp`; the following
definitions are modelled from the specification (§3 Candidate Patch, §4.1
`step()`, §8 disk membership / blend correctness). -/

/-- Modelled from the spec: a Candidate Patch of the Mutation Optimizer —
center position, radius, and an RGBA color whose alpha encodes blend strength.
The spec's glossary defines the affected cells by the integer-offset disk test
`dx²+dy² ≤ radius²`, so the center is modelled at integer coordinates. -/
structure Patch where
  cx : ℤ
  cy : ℤ
  radius : Nat
  color : Color

/-- Modelled from the spec: the glossary's disk test `dx²+dy² ≤ radius²` for
the cell `(x, y)` against the patch center. -/
def inDisk (patch : Patch) (x y : Nat) : Bool :=
  decide (((x : ℤ) - patch.cx) ^ 2 + ((y : ℤ) - patch.cy) ^ 2 ≤ (patch.radius : ℤ) ^ 2)

/-- Every cell of a `w × h` grid, row-major. -/
def allCells (w h : Nat) : List (Nat × Nat) :=
  (List.range h).flatMap (fun y => (List.range w).map (fun x => (x, y)))

/-- Modelled from the spec: the cells one patch touches — the grid cells
(clipped to grid bounds, §4.1 step 2) that pass the disk test.  The spec's
bounding-box restriction only skips cells that fail the disk test, so
iterating the whole clipped grid with the same test visits the same cells. -/
def diskCells (g : Image) (patch : Patch) : List (Nat × Nat) :=
  (allCells g.width g.height).filter (fun c => inDisk patch c.1 c.2)

/-- Modelled from the spec: one alpha-blended channel,
`⌊(a·patch + (255-a)·current)/255⌋` (§8, blend correctness). -/
def blendChannel (alpha pc cc : Nat) : Nat := (alpha * pc + (255 - alpha) * cc) / 255

/-- Modelled from the spec: the alpha-blended color written into the working
grid, output alpha forced opaque (§4.1 step 3). -/
def blendColor (patchColor cur : Color) : Color :=
  ⟨blendChannel patchColor.a patchColor.r cur.r,
   blendChannel patchColor.a patchColor.g cur.g,
   blendChannel patchColor.a patchColor.b cur.b, 255⟩

/-- Write one pixel of the working grid. -/
def setPixel (g : Image) (px py : Nat) (c : Color) : Image :=
  { g with pixel := fun x y => if x = px ∧ y = py then c else g.pixel x y }

/-- Modelled from the spec: the write-through pass (§4.1 step 3): visit the
disk cells in order and immediately write the blend of the patch color over
the current pixel. -/
def paintDisk (g : Image) (patch : Patch) (cells : List (Nat × Nat)) : Image :=
  cells.foldl (fun acc c => setPixel acc c.1 c.2 (blendColor patch.color (acc.pixel c.1 c.2))) g

/-- Modelled from the spec: the rollback (§4.1 step 4): restore every logged
cell to its recorded pre-edit color, in the order the log was recorded. -/
def revertCells (g : Image) (rollbackLog : List ((Nat × Nat) × Color)) : Image :=
  rollbackLog.foldl (fun acc e => setPixel acc e.1.1 e.1.2 e.2) g

/-- The squared-channel error between two grids accumulated over a cell list
(`errorBefore` / `errorAfter` of §4.1 step 3). -/
def errorOn (g target : Image) (cells : List (Nat × Nat)) : ℤ :=
  (cells.map (fun c => colorDiff (g.pixel c.1 c.2) (target.pixel c.1 c.2))).sum

/-- Modelled from the spec: one `step()` iteration of the Mutation Optimizer
(§4.1): log the pre-edit colors of the disk cells, paint the disk
write-through, compare the accumulated error before and after, and keep the
edit only on strict improvement (`errorAfter < errorBefore`), otherwise replay
the rollback log over the painted grid. -/
def optStep (g target : Image) (patch : Patch) : Image :=
  if errorOn (paintDisk g patch (diskCells g patch)) target (diskCells g patch)
      < errorOn g target (diskCells g patch) then
    paintDisk g patch (diskCells g patch)
  else
    revertCells (paintDisk g patch (diskCells g patch))
      ((diskCells g patch).map (fun c => (c, g.pixel c.1 c.2)))

/-- The total squared-channel error between the working grid and the target,
summed over the full grid. -/
def fullError (g target : Image) : ℤ := errorOn g target (allCells g.width g.height)

/-! Helper lemmas about `List.getD` and `update`. -/

lemma getD_map_of_lt {α β : Type} (f : α → β) (d : α) (d' : β) :
    ∀ (l : List α) (i : Nat), i < l.length → (l.map f).getD i d' = f (l.getD i d) := by
  intro l
  induction l with
  | nil => intro i hi; simp at hi
  | cons a l ih =>
    intro i hi
    cases i with
    | zero => rfl
    | succ n =>
      have hn : n < l.length := by simpa using hi
      simpa [List.getD] using ih n hn

lemma update_particles_eq (s : TrufflifierState) (t : ℚ) :
    (update s t).particles = s.particles.map (updateParticle (easeOutCubic t)) := rfl

lemma updateParticle_updateParticle (e e' : ℚ) (p : Particle) :
    updateParticle e (updateParticle e' p) = updateParticle e p := rfl

lemma update_update (s : TrufflifierState) (t' t : ℚ) :
    update (update s t') t = update s t := by
  unfold update
  simp [List.map_map, Function.comp_def, updateParticle_updateParticle]

/-- C2: for every built assignment, every particle index and every `t ∈ [0,1]`,
the frame query `update` reports the particle's current position as
`startPos + (1 - (1-t)^3) * (endPos - startPos)`, computed per coordinate, and
reports its displayed color as exactly its `startColor`. -/
theorem update_eased_interpolation (s : TrufflifierState) (t : ℚ)
    (ht0 : 0 ≤ t) (ht1 : t ≤ 1) (i : Nat) (hi : i < s.particles.length) :
    ((update s t).particles.getD i particleDefault).currentPos.x
        = (s.particles.getD i particleDefault).startPos.x
          + (1 - (1 - t) ^ 3)
            * ((s.particles.getD i particleDefault).endPos.x
               - (s.particles.getD i particleDefault).startPos.x) ∧
    ((update s t).particles.getD i particleDefault).currentPos.y
        = (s.particles.getD i particleDefault).startPos.y
          + (1 - (1 - t) ^ 3)
            * ((s.particles.getD i particleDefault).endPos.y
               - (s.particles.getD i particleDefault).startPos.y) ∧
    ((update s t).particles.getD i particleDefault).currentColor
        = (s.particles.getD i particleDefault).startColor := by
  rw [update_particles_eq, getD_map_of_lt (updateParticle (easeOutCubic t))
    particleDefault particleDefault s.particles i hi]
  refine ⟨?_, ?_, rfl⟩ <;>
    simp only [updateParticle, easeOutCubic] <;> ring

/-- Witness for `update_eased_interpolation` at a concrete particle and `t = 1/2`. -/
theorem update_eased_interpolation_witness :
    (0 : ℚ) ≤ 1 / 2 ∧ (1 / 2 : ℚ) ≤ 1 ∧ 0 < ([⟨⟨3, 4⟩, ⟨11, 24⟩, ⟨9, 8, 7, 255⟩,
        ⟨1, 2, 3, 255⟩, vec2Zero, sfColorDefault, 2⟩] : List Particle).length ∧
    ((update ⟨[⟨⟨3, 4⟩, ⟨11, 24⟩, ⟨9, 8, 7, 255⟩, ⟨1, 2, 3, 255⟩, vec2Zero,
          sfColorDefault, 2⟩], []⟩ (1 / 2)).particles.getD 0 particleDefault).currentPos.x
        = (([⟨⟨3, 4⟩, ⟨11, 24⟩, ⟨9, 8, 7, 255⟩, ⟨1, 2, 3, 255⟩, vec2Zero,
            sfColorDefault, 2⟩] : List Particle).getD 0 particleDefault).startPos.x
          + (1 - (1 - 1 / 2) ^ 3)
            * ((([⟨⟨3, 4⟩, ⟨11, 24⟩, ⟨9, 8, 7, 255⟩, ⟨1, 2, 3, 255⟩, vec2Zero,
                sfColorDefault, 2⟩] : List Particle).getD 0 particleDefault).endPos.x
               - (([⟨⟨3, 4⟩, ⟨11, 24⟩, ⟨9, 8, 7, 255⟩, ⟨1, 2, 3, 255⟩, vec2Zero,
                  sfColorDefault, 2⟩] : List Particle).getD 0 particleDefault).startPos.x) :=
  ⟨by norm_num, by norm_num, by simp,
    (update_eased_interpolation ⟨[⟨⟨3, 4⟩, ⟨11, 24⟩, ⟨9, 8, 7, 255⟩, ⟨1, 2, 3, 255⟩,
      vec2Zero, sfColorDefault, 2⟩], []⟩ (1 / 2) (by norm_num) (by norm_num) 0 (by simp)).1⟩

/-- C3: the call `update 0` reports every particle's `startPos` exactly and `update 1`
reports every particle's `endPos` exactly, because `easeOutCubic 0 = 0` and
`easeOutCubic 1 = 1` in the exact arithmetic of the embedding. -/
theorem update_endpoint_positions (s : TrufflifierState) (i : Nat)
    (hi : i < s.particles.length) :
    ((update s 0).particles.getD i particleDefault).currentPos.x
        = (s.particles.getD i particleDefault).startPos.x ∧
    ((update s 0).particles.getD i particleDefault).currentPos.y
        = (s.particles.getD i particleDefault).startPos.y ∧
    ((update s 1).particles.getD i particleDefault).currentPos.x
        = (s.particles.getD i particleDefault).endPos.x ∧
    ((update s 1).particles.getD i particleDefault).currentPos.y
        = (s.particles.getD i particleDefault).endPos.y := by
  rw [update_particles_eq, update_particles_eq,
    getD_map_of_lt (updateParticle (easeOutCubic 0)) particleDefault particleDefault
      s.particles i hi,
    getD_map_of_lt (updateParticle (easeOutCubic 1)) particleDefault particleDefault
      s.particles i hi]
  refine ⟨?_, ?_, ?_, ?_⟩ <;>
    simp only [updateParticle, easeOutCubic] <;> ring

/-- Witness for `update_endpoint_positions` at a concrete one-particle state. -/
theorem update_endpoint_positions_witness :
    0 < ([⟨⟨3, 4⟩, ⟨11, 24⟩, ⟨9, 8, 7, 255⟩, ⟨1, 2, 3, 255⟩, vec2Zero, sfColorDefault,
        2⟩] : List Particle).length ∧
    ((update ⟨[⟨⟨3, 4⟩, ⟨11, 24⟩, ⟨9, 8, 7, 255⟩, ⟨1, 2, 3, 255⟩, vec2Zero,
          sfColorDefault, 2⟩], []⟩ 0).particles.getD 0 particleDefault).currentPos.x
        = (([⟨⟨3, 4⟩, ⟨11, 24⟩, ⟨9, 8, 7, 255⟩, ⟨1, 2, 3, 255⟩, vec2Zero,
            sfColorDefault, 2⟩] : List Particle).getD 0 particleDefault).startPos.x :=
  ⟨by simp,
    (update_endpoint_positions ⟨[⟨⟨3, 4⟩, ⟨11, 24⟩, ⟨9, 8, 7, 255⟩, ⟨1, 2, 3, 255⟩,
      vec2Zero, sfColorDefault, 2⟩], []⟩ 0 (by simp)).1⟩

/-- C7: the function `update` is a pure function of the progress value and the immutable
particle fields: after any sequence of earlier `update` calls (with arbitrary,
possibly decreasing progress values), a call with progress `t` produces exactly
the state a first call with `t` would produce; in particular two calls with the
same `t` agree and no state accumulates across calls. -/
theorem update_pure_in_t (s : TrufflifierState) (ts : List ℚ) (t : ℚ) :
    update (ts.foldl update s) t = update s t := by
  induction ts generalizing s with
  | nil => rfl
  | cons t' ts ih =>
    rw [List.foldl_cons, ih (update s t'), update_update]

/-- Counterexample to C5: for the 2000×1000 target in an 800×800 window the
target's aspect ratio exceeds the window's, yet the computed scale is not
`0.8·windowW/targetWidth` (which would be `8/25`): the code clamps it to `1`,
so the target's longest dimension does not occupy 80% of the viewport. -/
theorem target_scale_counterexample :
    ((wideTarget.width : ℚ) / (wideTarget.height : ℚ) > (800 : ℚ) / (800 : ℚ)) ∧
    targetScaleOf wideTarget 800 800 ≠ ((800 : ℚ) * (4 / 5)) / (wideTarget.width : ℚ) ∧
    targetScaleOf wideTarget 800 800 = 1 ∧
    (wideTarget.width : ℚ) * targetScaleOf wideTarget 800 800 ≠ (4 / 5) * 800 := by
  refine ⟨by norm_num [wideTarget], ?_, ?_, ?_⟩ <;>
    norm_num [wideTarget, targetScaleOf, max_def]

/-- C5 as amended: the layout pass computes the target display scale as the
spec's 80%-fit value *clamped from below by 1* — `max 1 (0.8·windowW/targetWidth)`
when the target's aspect ratio exceeds the window's (equivalently
`windowW·targetHeight < targetWidth·windowH`), and
`max 1 (0.8·windowH/targetHeight)` otherwise — and the offsets center the
scaled image: the left margin equals the right margin and the top margin
equals the bottom margin. -/
theorem target_transform_amended (target : Image) (windowW windowH : Nat)
    (hth : 0 < target.height) (hwH : 0 < windowH) :
    (targetScaleOf target windowW windowH
      = if (windowW : ℚ) * (target.height : ℚ) < (target.width : ℚ) * (windowH : ℚ)
        then max 1 (4 / 5 * (windowW : ℚ) / (target.width : ℚ))
        else max 1 (4 / 5 * (windowH : ℚ) / (target.height : ℚ))) ∧
    targetOffsetXOf target windowW windowH
      = (windowW : ℚ) - (targetOffsetXOf target windowW windowH
          + (target.width : ℚ) * targetScaleOf target windowW windowH) ∧
    targetOffsetYOf target windowW windowH
      = (windowH : ℚ) - (targetOffsetYOf target windowW windowH
          + (target.height : ℚ) * targetScaleOf target windowW windowH) := by
  have h1 : (0 : ℚ) < (windowH : ℚ) := by exact_mod_cast hwH
  have h2 : (0 : ℚ) < (target.height : ℚ) := by exact_mod_cast hth
  refine ⟨?_, ?_, ?_⟩
  · simp only [targetScaleOf, gt_iff_lt, div_lt_div_iff₀ h1 h2]
    rw [apply_ite (max 1)]
    split
    · congr 1; ring
    · congr 1; ring
  · simp only [targetOffsetXOf]; ring
  · simp only [targetOffsetYOf]; ring

/-- Witness for `target_transform_amended` at the concrete 2000×1000 target in
an 800×800 window (where the clamp makes the scale `1`). -/
theorem target_transform_amended_witness :
    0 < wideTarget.height ∧ 0 < 800 ∧
    targetScaleOf wideTarget 800 800
      = if (800 : ℚ) * (wideTarget.height : ℚ) < (wideTarget.width : ℚ) * (800 : ℚ)
        then max 1 (4 / 5 * (800 : ℚ) / (wideTarget.width : ℚ))
        else max 1 (4 / 5 * (800 : ℚ) / (wideTarget.height : ℚ)) :=
  ⟨by decide, by decide,
    (target_transform_amended wideTarget 800 800 (by decide) (by decide)).1⟩

/-! Helper lemmas about the grid iteration shape. -/

lemma strideList_one (n : Nat) : strideList n 1 = List.range n := by
  simp [strideList]

lemma mem_strideList {n step x : Nat} (hs : 0 < step) (hx : x ∈ strideList n step) :
    x < n := by
  rcases List.mem_map.mp hx with ⟨k, hk, rfl⟩
  have hk1 : k + 1 ≤ (n + step - 1) / step := List.mem_range.mp hk
  have h2 : (k + 1) * step ≤ n + step - 1 := (Nat.le_div_iff_mul_le hs).mp hk1
  have h3 : k * step + step ≤ n + step - 1 := by rw [Nat.succ_mul] at h2; exact h2
  generalize k * step = m at h3 ⊢
  omega

lemma mem_grid2D {α : Type} {w h step : Nat} {f : Nat → Nat → Option α} {a : α}
    (hs : 0 < step) (ha : a ∈ grid2D w h step f) :
    ∃ x y, x < w ∧ y < h ∧ f x y = some a := by
  unfold grid2D at ha
  rcases List.mem_flatMap.mp ha with ⟨y, hy, hrow⟩
  rcases List.mem_filterMap.mp hrow with ⟨x, hx, hfx⟩
  exact ⟨x, y, mem_strideList hs hx, mem_strideList hs hy, hfx⟩

lemma stepOf_pos (input : Image) : 0 < stepOf input := by
  unfold stepOf
  split
  · rename_i hlt
    have h1 : 1 ≤ input.width * input.height / 15000 :=
      (Nat.one_le_div_iff (by norm_num)).mpr (by omega)
    calc 0 < Nat.sqrt 1 := by norm_num
    _ ≤ Nat.sqrt (input.width * input.height / 15000) := Nat.sqrt_le_sqrt h1
  · exact Nat.one_pos

lemma filterMap_eq_nil_of_none {α β : Type} {g : α → Option β} :
    ∀ {l : List α}, (∀ a ∈ l, g a = none) → l.filterMap g = [] := by
  intro l
  induction l with
  | nil => intro _; rfl
  | cons a l ih =>
    intro hall
    rw [List.filterMap_cons, hall a (List.mem_cons_self a l)]
    exact ih (fun b hb => hall b (List.mem_cons_of_mem a hb))

lemma grid2D_eq_nil {α : Type} {w h step : Nat} {f : Nat → Nat → Option α}
    (hs : 0 < step) (hf : ∀ x y, x < w → y < h → f x y = none) :
    grid2D w h step f = [] := by
  rw [List.eq_nil_iff_forall_not_mem]
  intro a ha
  rcases mem_grid2D hs ha with ⟨x, y, hx, hy, hfa⟩
  rw [hf x y hx hy] at hfa
  exact Option.noConfusion hfa

lemma filterMap_range_eq_single {α : Type} (g : Nat → Option α) (a : α) (i₀ : Nat) :
    ∀ n, i₀ < n → g i₀ = some a → (∀ i, i < n → i ≠ i₀ → g i = none) →
      (List.range n).filterMap g = [a] := by
  intro n
  induction n with
  | zero => intro h0; omega
  | succ m ih =>
    intro hi ha hn
    rw [List.range_succ, List.filterMap_append]
    by_cases hc : i₀ = m
    · have h1 : (List.range m).filterMap g = [] :=
        filterMap_eq_nil_of_none (fun i himem =>
          hn i (by have := List.mem_range.mp himem; omega)
            (by have := List.mem_range.mp himem; omega))
      have h4 : g m = some a := by rw [← hc]; exact ha
      simp [h1, List.filterMap_cons, h4]
    · have h2 : (List.range m).filterMap g = [a] :=
        ih (by omega) ha (fun i hilt hine => hn i (by omega) hine)
      have h3 : g m = none := hn m (by omega) (fun he => hc he.symm)
      simp [h2, List.filterMap_cons, h3]

lemma flatMap_range_eq_single {α : Type} (G : Nat → List α) (l : List α) (y₀ : Nat) :
    ∀ h, y₀ < h → G y₀ = l → (∀ y, y < h → y ≠ y₀ → G y = []) →
      (List.range h).flatMap G = l := by
  intro h
  induction h with
  | zero => intro h0; omega
  | succ m ih =>
    intro hy hG hn
    rw [List.range_succ, List.flatMap_append]
    by_cases hc : y₀ = m
    · have h1 : (List.range m).flatMap G = [] := by
        rw [List.eq_nil_iff_forall_not_mem]
        intro a hamem
        rcases List.mem_flatMap.mp hamem with ⟨y, hymem, hain⟩
        rw [hn y (by have := List.mem_range.mp hymem; omega)
          (by have := List.mem_range.mp hymem; omega)] at hain
        exact (List.not_mem_nil a) hain
      have h4 : G m = l := by rw [← hc]; exact hG
      simp [h1, h4]
    · have h2 : (List.range m).flatMap G = l :=
        ih (by omega) hG (fun y hylt hyne => hn y (by omega) hyne)
      have h3 : G m = [] := hn m (by omega) (fun he => hc he.symm)
      simp [h2, h3]

lemma grid2D_one_eq_single {α : Type} {w h : Nat} {f : Nat → Nat → Option α}
    {x₀ y₀ : Nat} {a : α}
    (hx : x₀ < w) (hy : y₀ < h) (ha : f x₀ y₀ = some a)
    (hn : ∀ x, x < w → ∀ y, y < h → ¬(x = x₀ ∧ y = y₀) → f x y = none) :
    grid2D w h 1 f = [a] := by
  unfold grid2D
  rw [strideList_one, strideList_one]
  apply flatMap_range_eq_single _ _ y₀ h hy
  · exact filterMap_range_eq_single _ a x₀ w hx ha
      (fun i hi hine => hn i hi y₀ hy (fun hand => hine hand.1))
  · intro y hyl hyne
    exact filterMap_eq_nil_of_none
      (fun x hxmem => hn x (List.mem_range.mp hxmem) y hyl (fun hand => hyne hand.2))

lemma filterMap_length_congr {α β γ : Type} (f : α → Option β) (g : α → Option γ) :
    ∀ l : List α, (∀ a ∈ l, (f a).isSome = (g a).isSome) →
      (l.filterMap f).length = (l.filterMap g).length := by
  intro l
  induction l with
  | nil => intro _; rfl
  | cons a l ih =>
    intro hfg
    have hh := hfg a (List.mem_cons_self a l)
    have ht := ih (fun b hb => hfg b (List.mem_cons_of_mem a hb))
    rw [List.filterMap_cons, List.filterMap_cons]
    cases hfa : f a <;> cases hga : g a <;> rw [hfa, hga] at hh <;> simp_all

lemma flatMap_length_congr {β γ : Type} (F : Nat → List β) (G : Nat → List γ) :
    ∀ l : List Nat, (∀ a ∈ l, (F a).length = (G a).length) →
      (l.flatMap F).length = (l.flatMap G).length := by
  intro l
  induction l with
  | nil => intro _; rfl
  | cons a l ih =>
    intro hfg
    rw [List.flatMap_cons, List.flatMap_cons, List.length_append, List.length_append,
      hfg a (List.mem_cons_self a l), ih (fun b hb => hfg b (List.mem_cons_of_mem a hb))]

lemma grid2D_length_congr {α β : Type} {w h step : Nat} {f : Nat → Nat → Option α}
    {g : Nat → Nat → Option β} (hfg : ∀ x y, (f x y).isSome = (g x y).isSome) :
    (grid2D w h step f).length = (grid2D w h step g).length := by
  unfold grid2D
  exact flatMap_length_congr _ _ _ (fun y _ =>
    filterMap_length_congr _ _ _ (fun x _ => hfg x y))

/-- C8: for a fixed source image, target image and viewport, the number of
particles produced by the layout pass is the same for every random tape, and it
equals the number of stride-aligned source pixels with nonzero alpha — the
match-sampling, jitter and size draws never affect the particle count. -/
theorem particle_count_random_independent (input target : Image)
    (windowW windowH : Nat) (tape₁ tape₂ : Tape) :
    (initParticles input target windowW windowH tape₁).length
        = (initParticles input target windowW windowH tape₂).length ∧
    (initParticles input target windowW windowH tape₁).length
        = (strideOpaquePixels input).length := by
  constructor
  · simp only [initParticles]
    apply grid2D_length_congr
    intro x y
    by_cases hα : (input.pixel x y).a = 0 <;> simp [hα]
  · simp only [initParticles, strideOpaquePixels]
    apply grid2D_length_congr
    intro x y
    by_cases hα : (input.pixel x y).a = 0 <;> simp [hα]

/-- C6: if the Target Pixel Index is empty (no target pixel has nonzero alpha),
every particle produced by the layout pass has `endPos` equal to its own
`startPos`, for every source image and every random tape. -/
theorem empty_target_endPos_eq_startPos (input target : Image)
    (windowW windowH : Nat) (tape : Tape)
    (hempty : ∀ x, x < target.width → ∀ y, y < target.height → (target.pixel x y).a = 0)
    (p : Particle) (hp : p ∈ initParticles input target windowW windowH tape) :
    p.endPos = p.startPos := by
  have htps : targetPixelsOf target windowW windowH = [] := by
    simp only [targetPixelsOf]
    exact grid2D_eq_nil Nat.one_pos (fun x y hx hy => by simp [hempty x hx y hy])
  simp only [initParticles] at hp
  rcases mem_grid2D (stepOf_pos input) hp with ⟨x, y, hx, hy, hfx⟩
  rw [htps] at hfx
  by_cases hα : (input.pixel x y).a = 0
  · rw [if_pos hα] at hfx; exact Option.noConfusion hfx
  · rw [if_neg hα] at hfx
    have hpe := Option.some.inj hfx
    rw [← hpe]
    simp [mkParticle]

/-- C10: if the Target Pixel Index is empty, each produced particle's
`endColor` is never assigned and keeps the `sf::Color` default value
`(0,0,0,255)`, while `endPos` is still defined (set to `startPos`). -/
theorem empty_target_endColor_default (input target : Image)
    (windowW windowH : Nat) (tape : Tape)
    (hempty : ∀ x, x < target.width → ∀ y, y < target.height → (target.pixel x y).a = 0)
    (p : Particle) (hp : p ∈ initParticles input target windowW windowH tape) :
    p.endColor = ⟨0, 0, 0, 255⟩ ∧ p.endPos = p.startPos := by
  have htps : targetPixelsOf target windowW windowH = [] := by
    simp only [targetPixelsOf]
    exact grid2D_eq_nil Nat.one_pos (fun x y hx hy => by simp [hempty x hx y hy])
  simp only [initParticles] at hp
  rcases mem_grid2D (stepOf_pos input) hp with ⟨x, y, hx, hy, hfx⟩
  rw [htps] at hfx
  by_cases hα : (input.pixel x y).a = 0
  · rw [if_pos hα] at hfx; exact Option.noConfusion hfx
  · rw [if_neg hα] at hfx
    have hpe := Option.some.inj hfx
    rw [← hpe]
    exact ⟨by simp [mkParticle, sfColorDefault], by simp [mkParticle]⟩

/-! Bounds of the candidate sampling (claim C9). -/

lemma bestMatch_fold_bound (inputCol : Color) (tps : List TargetPixel) :
    ∀ (samples : List Nat) (acc : Nat × ℤ), acc.1 < tps.length →
      (∀ i ∈ samples, i < tps.length) →
      (samples.foldl (bestMatchStep inputCol tps) acc).1 < tps.length := by
  intro samples
  induction samples with
  | nil => intro acc hacc _; exact hacc
  | cons sm ss ih =>
    intro acc hacc hall
    rw [List.foldl_cons]
    apply ih
    · simp only [bestMatchStep]
      split
      · exact hall sm (List.mem_cons_self sm ss)
      · exact hacc
    · intro i hi
      exact hall i (List.mem_cons_of_mem sm hi)

/-- C9: every read of the Target Pixel Index during candidate sampling is in
bounds: whenever the index is non-empty and every sampled index is within
`[0, size-1]` (the guarantee of `uniform_int_distribution(0, size-1)`), the
`bestIndex` produced by the sampling loop names a valid element, so both
`targetPixels[idx]` and `targetPixels[bestIndex]` stay in bounds. -/
theorem sampling_reads_in_bounds (inputCol : Color) (tps : List TargetPixel)
    (samples : List Nat) (hne : tps ≠ [])
    (hs : ∀ i ∈ samples, i < tps.length) :
    bestMatch inputCol tps samples < tps.length :=
  bestMatch_fold_bound inputCol tps samples (0, -1) (List.length_pos.mpr hne) hs

/-- Witness for `sampling_reads_in_bounds` on a one-element index with two
samples. -/
theorem sampling_reads_in_bounds_witness :
    ([⟨⟨5, 5, 5, 255⟩, vec2Zero⟩] : List TargetPixel) ≠ [] ∧
    bestMatch ⟨7, 7, 7, 255⟩ [⟨⟨5, 5, 5, 255⟩, vec2Zero⟩] [0, 0]
      < ([⟨⟨5, 5, 5, 255⟩, vec2Zero⟩] : List TargetPixel).length :=
  ⟨by simp, sampling_reads_in_bounds ⟨7, 7, 7, 255⟩ [⟨⟨5, 5, 5, 255⟩, vec2Zero⟩]
    [0, 0] (by simp) (by simp)⟩

lemma stepOf_solo : stepOf soloInput = 1 := by
  unfold stepOf
  rw [if_neg (by norm_num [soloInput])]

lemma initParticles_solo_clear :
    initParticles soloInput clearTarget 800 800 plainTape = [soloParticle] := by
  simp only [initParticles, stepOf_solo]
  apply grid2D_one_eq_single (show 0 < soloInput.width from Nat.one_pos)
    (show 0 < soloInput.height from Nat.one_pos)
  · rfl
  · intro x hx1 y hy1 hne
    have hx' : x < 1 := hx1
    have hy' : y < 1 := hy1
    exact absurd ⟨by omega, by omega⟩ hne

/-- Witness for `empty_target_endPos_eq_startPos` on the concrete 1×1 opaque
source and fully transparent target. -/
theorem empty_target_endPos_witness :
    soloParticle.endPos = soloParticle.startPos :=
  empty_target_endPos_eq_startPos soloInput clearTarget 800 800 plainTape
    (fun x hx y hy => rfl) soloParticle
    (by rw [initParticles_solo_clear]; exact List.mem_cons_self _ _)

/-- Witness for `empty_target_endColor_default` on the same concrete scenario. -/
theorem empty_target_endColor_witness :
    soloParticle.endColor = ⟨0, 0, 0, 255⟩ ∧ soloParticle.endPos = soloParticle.startPos :=
  empty_target_endColor_default soloInput clearTarget 800 800 plainTape
    (fun x hx y hy => rfl) soloParticle
    (by rw [initParticles_solo_clear]; exact List.mem_cons_self _ _)

/-! The single-opaque-pixel layout (claim C4). -/

lemma targetPixels_single (target : Image) (windowW windowH : Nat) (tx ty : Nat)
    (htx : tx < target.width) (hty : ty < target.height)
    (htgt : 0 < (target.pixel tx ty).a)
    (htgtU : ∀ x, x < target.width → ∀ y, y < target.height → ¬(x = tx ∧ y = ty) →
      (target.pixel x y).a = 0) :
    targetPixelsOf target windowW windowH
      = [⟨target.pixel tx ty,
          ⟨targetOffsetXOf target windowW windowH
             + (tx : ℚ) * targetScaleOf target windowW windowH,
           targetOffsetYOf target windowW windowH
             + (ty : ℚ) * targetScaleOf target windowW windowH⟩⟩] := by
  simp only [targetPixelsOf]
  apply grid2D_one_eq_single htx hty
  · simp [htgt]
  · intro x hx y hy hne
    simp [htgtU x hx y hy hne]

lemma bestMatch_single (inputCol : Color) (tp : TargetPixel) (samples : List Nat)
    (hs : ∀ i ∈ samples, i < 1) :
    bestMatch inputCol [tp] samples = 0 := by
  have h5 : (samples.foldl (bestMatchStep inputCol [tp]) (0, -1)).1 < 1 := by
    simpa using bestMatch_fold_bound inputCol [tp] samples (0, -1) (by simp) hs
  unfold bestMatch
  omega

lemma initParticles_single_single
    (input target : Image) (windowW windowH : Nat) (tape : Tape)
    (x₀ y₀ tx ty : Nat)
    (hsmall : input.width * input.height ≤ 15000)
    (hx₀ : x₀ < input.width) (hy₀ : y₀ < input.height)
    (hsrc : (input.pixel x₀ y₀).a ≠ 0)
    (hsrcU : ∀ x, x < input.width → ∀ y, y < input.height → ¬(x = x₀ ∧ y = y₀) →
      (input.pixel x y).a = 0)
    (htx : tx < target.width) (hty : ty < target.height)
    (htgt : 0 < (target.pixel tx ty).a)
    (htgtU : ∀ x, x < target.width → ∀ y, y < target.height → ¬(x = tx ∧ y = ty) →
      (target.pixel x y).a = 0)
    (hsample : ∀ i, i < 100 →
      (tape x₀ y₀).sample i < (targetPixelsOf target windowW windowH).length) :
    initParticles input target windowW windowH tape
      = [⟨⟨inputOffsetXOf input windowW windowH
             + (x₀ : ℚ) * displayScaleOf input windowW windowH,
           inputOffsetYOf input windowW windowH
             + (y₀ : ℚ) * displayScaleOf input windowW windowH⟩,
          ⟨targetOffsetXOf target windowW windowH
             + (tx : ℚ) * targetScaleOf target windowW windowH + (tape x₀ y₀).jx,
           targetOffsetYOf target windowW windowH
             + (ty : ℚ) * targetScaleOf target windowW windowH + (tape x₀ y₀).jy⟩,
          input.pixel x₀ y₀, target.pixel tx ty, vec2Zero, input.pixel x₀ y₀,
          baseParticleSizeOf input windowW windowH * (tape x₀ y₀).sizeF⟩] := by
  have htps := targetPixels_single target windowW windowH tx ty htx hty htgt htgtU
  have hstep : stepOf input = 1 := by
    unfold stepOf
    rw [if_neg (by omega)]
  have hsample1 : ∀ i, i < 100 → (tape x₀ y₀).sample i < 1 := by
    intro i hi
    have := hsample i hi
    rwa [htps] at this
  simp only [initParticles, hstep, htps]
  apply grid2D_one_eq_single hx₀ hy₀
  · rw [if_neg hsrc]
    have hbest : bestMatch (input.pixel x₀ y₀)
        [⟨target.pixel tx ty,
          ⟨targetOffsetXOf target windowW windowH
             + (tx : ℚ) * targetScaleOf target windowW windowH,
           targetOffsetYOf target windowW windowH
             + (ty : ℚ) * targetScaleOf target windowW windowH⟩⟩]
        ((List.range 100).map (tape x₀ y₀).sample) = 0 := by
      apply bestMatch_single
      intro i hi
      rcases List.mem_map.mp hi with ⟨j, hj, rfl⟩
      exact hsample1 j (List.mem_range.mp hj)
    simp only [mkParticle, List.isEmpty_cons, Bool.false_eq_true, if_false, hbest,
      List.getD_cons_zero]
  · intro x hx y hy hne
    simp [hsrcU x hx y hy hne]

lemma targetScale_soloTarget : targetScaleOf soloTarget 800 800 = 640 := by
  norm_num [targetScaleOf, soloTarget, max_def]

lemma soloTarget_unique (x : Nat) (hx : x < soloTarget.width) (y : Nat)
    (hy : y < soloTarget.height) (hne : ¬(x = 0 ∧ y = 0)) :
    (soloTarget.pixel x y).a = 0 := by
  have hx' : x < 1 := hx
  have hy' : y < 1 := hy
  exact absurd ⟨by omega, by omega⟩ hne

lemma soloInput_unique (x : Nat) (hx : x < soloInput.width) (y : Nat)
    (hy : y < soloInput.height) (hne : ¬(x = 0 ∧ y = 0)) :
    (soloInput.pixel x y).a = 0 := by
  have hx' : x < 1 := hx
  have hy' : y < 1 := hy
  exact absurd ⟨by omega, by omega⟩ hne

lemma targetPixels_soloTarget_length :
    (targetPixelsOf soloTarget 800 800).length = 1 := by
  rw [targetPixels_single soloTarget 800 800 0 0 Nat.one_pos Nat.one_pos (by decide)
    soloTarget_unique]
  rfl

lemma jitterRand_valid :
    ValidRand (targetPixelsOf soloTarget 800 800).length (targetScaleOf soloTarget 800 800)
      jitterRand := by
  rw [targetPixels_soloTarget_length, targetScale_soloTarget]
  exact ⟨⟨by norm_num [jitterRand], by norm_num [jitterRand]⟩, fun i hi => Nat.one_pos,
    ⟨by norm_num [jitterRand], by norm_num [jitterRand]⟩,
    ⟨by norm_num [jitterRand], by norm_num [jitterRand]⟩⟩

/-- Counterexample to C4: for a 1×1 opaque source and a 1×1 opaque target, a
legal state of the random generator (all distribution outputs within their
documented ranges, x-jitter `1`) produces the single particle with `endPos`
different from the target pixel's display position — the code adds the
`jitterDist` offsets to the matched position (src/main.cpp:163-166). -/
theorem single_pixel_match_counterexample :
    ValidRand (targetPixelsOf soloTarget 800 800).length (targetScaleOf soloTarget 800 800)
      jitterRand ∧
    (initParticles soloInput soloTarget 800 800 jitterTape).length = 1 ∧
    ((initParticles soloInput soloTarget 800 800 jitterTape).getD 0 particleDefault).endPos
      ≠ ⟨targetOffsetXOf soloTarget 800 800 + ((0 : Nat) : ℚ) * targetScaleOf soloTarget 800 800,
         targetOffsetYOf soloTarget 800 800
           + ((0 : Nat) : ℚ) * targetScaleOf soloTarget 800 800⟩ := by
  have hlist := initParticles_single_single soloInput soloTarget 800 800 jitterTape 0 0 0 0
    (by norm_num [soloInput]) Nat.one_pos Nat.one_pos (by decide) soloInput_unique
    Nat.one_pos Nat.one_pos (by decide) soloTarget_unique
    (fun i hi => by rw [targetPixels_soloTarget_length]; exact Nat.one_pos)
  refine ⟨jitterRand_valid, ?_, ?_⟩
  · rw [hlist]; rfl
  · rw [hlist]
    simp only [List.getD_cons_zero]
    simp [Vec2.mk.injEq, jitterTape, jitterRand]

/-- C4 as amended: for every source image with exactly one opaque pixel (lying
on the stride grid — guaranteed here by a source small enough that no
downsampling occurs, `width·height ≤ 15000`), every target image with exactly
one opaque pixel, and every legal random state, the layout pass produces
exactly one particle, and that particle's `endPos` equals the single target
pixel's display position *offset by the two jitter draws*, each bounded in
magnitude by `0.4·targetScale` (so the claim's equality holds only up to the
deliberate jitter). -/
theorem single_pixel_match_amended
    (input target : Image) (windowW windowH : Nat) (tape : Tape)
    (x₀ y₀ tx ty : Nat)
    (hsmall : input.width * input.height ≤ 15000)
    (hx₀ : x₀ < input.width) (hy₀ : y₀ < input.height)
    (hsrc : (input.pixel x₀ y₀).a ≠ 0)
    (hsrcU : ∀ x, x < input.width → ∀ y, y < input.height → ¬(x = x₀ ∧ y = y₀) →
      (input.pixel x y).a = 0)
    (htx : tx < target.width) (hty : ty < target.height)
    (htgt : 0 < (target.pixel tx ty).a)
    (htgtU : ∀ x, x < target.width → ∀ y, y < target.height → ¬(x = tx ∧ y = ty) →
      (target.pixel x y).a = 0)
    (hrand : ValidRand (targetPixelsOf target windowW windowH).length
      (targetScaleOf target windowW windowH) (tape x₀ y₀)) :
    (initParticles input target windowW windowH tape).length = 1 ∧
    ((initParticles input target windowW windowH tape).getD 0 particleDefault).endPos.x
        = targetOffsetXOf target windowW windowH
          + (tx : ℚ) * targetScaleOf target windowW windowH + (tape x₀ y₀).jx ∧
    ((initParticles input target windowW windowH tape).getD 0 particleDefault).endPos.y
        = targetOffsetYOf target windowW windowH
          + (ty : ℚ) * targetScaleOf target windowW windowH + (tape x₀ y₀).jy ∧
    -(2 / 5 * targetScaleOf target windowW windowH) ≤ (tape x₀ y₀).jx ∧
    (tape x₀ y₀).jx < 2 / 5 * targetScaleOf target windowW windowH ∧
    -(2 / 5 * targetScaleOf target windowW windowH) ≤ (tape x₀ y₀).jy ∧
    (tape x₀ y₀).jy < 2 / 5 * targetScaleOf target windowW windowH := by
  have hlist := initParticles_single_single input target windowW windowH tape x₀ y₀ tx ty
    hsmall hx₀ hy₀ hsrc hsrcU htx hty htgt htgtU hrand.2.1
  rw [hlist]
  exact ⟨rfl, rfl, rfl, hrand.2.2.1.1, hrand.2.2.1.2, hrand.2.2.2.1, hrand.2.2.2.2⟩

/-- Witness for `single_pixel_match_amended` at the concrete 1×1 source/target
pair with x-jitter `1`. -/
theorem single_pixel_match_amended_witness :
    (initParticles soloInput soloTarget 800 800 jitterTape).length = 1 ∧
    ((initParticles soloInput soloTarget 800 800 jitterTape).getD 0 particleDefault).endPos.x
        = targetOffsetXOf soloTarget 800 800
          + ((0 : Nat) : ℚ) * targetScaleOf soloTarget 800 800 + (jitterTape 0 0).jx := by
  have H := single_pixel_match_amended soloInput soloTarget 800 800 jitterTape 0 0 0 0
    (by norm_num [soloInput]) Nat.one_pos Nat.one_pos (by decide) soloInput_unique
    Nat.one_pos Nat.one_pos (by decide) soloTarget_unique jitterRand_valid
  exact ⟨H.1, H.2.1⟩

lemma setPixel_pixel (g : Image) (px py : Nat) (c : Color) (x y : Nat) :
    (setPixel g px py c).pixel x y = if x = px ∧ y = py then c else g.pixel x y := rfl

lemma paintDisk_width (patch : Patch) :
    ∀ (cells : List (Nat × Nat)) (g : Image), (paintDisk g patch cells).width = g.width := by
  intro cells
  induction cells with
  | nil => intro g; rfl
  | cons c cs ih =>
    intro g
    show (paintDisk (setPixel g c.1 c.2 (blendColor patch.color (g.pixel c.1 c.2)))
      patch cs).width = g.width
    rw [ih]
    rfl

lemma paintDisk_height (patch : Patch) :
    ∀ (cells : List (Nat × Nat)) (g : Image), (paintDisk g patch cells).height = g.height := by
  intro cells
  induction cells with
  | nil => intro g; rfl
  | cons c cs ih =>
    intro g
    show (paintDisk (setPixel g c.1 c.2 (blendColor patch.color (g.pixel c.1 c.2)))
      patch cs).height = g.height
    rw [ih]
    rfl

lemma revertCells_width :
    ∀ (rollbackLog : List ((Nat × Nat) × Color)) (g : Image),
      (revertCells g rollbackLog).width = g.width := by
  intro rollbackLog
  induction rollbackLog with
  | nil => intro g; rfl
  | cons e es ih =>
    intro g
    show (revertCells (setPixel g e.1.1 e.1.2 e.2) es).width = g.width
    rw [ih]
    rfl

lemma revertCells_height :
    ∀ (rollbackLog : List ((Nat × Nat) × Color)) (g : Image),
      (revertCells g rollbackLog).height = g.height := by
  intro rollbackLog
  induction rollbackLog with
  | nil => intro g; rfl
  | cons e es ih =>
    intro g
    show (revertCells (setPixel g e.1.1 e.1.2 e.2) es).height = g.height
    rw [ih]
    rfl

lemma paintDisk_pixel (patch : Patch) :
    ∀ (cells : List (Nat × Nat)), cells.Nodup → ∀ (g : Image) (x y : Nat),
      (paintDisk g patch cells).pixel x y
        = if (x, y) ∈ cells then blendColor patch.color (g.pixel x y) else g.pixel x y := by
  intro cells
  induction cells with
  | nil => intro _ g x y; simp [paintDisk]
  | cons c cs ih =>
    obtain ⟨c1, c2⟩ := c
    intro hnd g x y
    have hcnotin : (c1, c2) ∉ cs := (List.nodup_cons.mp hnd).1
    have hnd' : cs.Nodup := (List.nodup_cons.mp hnd).2
    show (paintDisk (setPixel g c1 c2 (blendColor patch.color (g.pixel c1 c2)))
      patch cs).pixel x y = _
    rw [ih hnd']
    by_cases hmem : (x, y) ∈ cs
    · have hxyne : ¬(x = c1 ∧ y = c2) := by
        intro hand
        rw [hand.1, hand.2] at hmem
        exact hcnotin hmem
      rw [if_pos hmem, setPixel_pixel, if_neg hxyne,
        if_pos (List.mem_cons_of_mem (c1, c2) hmem)]
    · rw [if_neg hmem, setPixel_pixel]
      by_cases hec : x = c1 ∧ y = c2
      · have hin : (x, y) ∈ (c1, c2) :: cs := by
          rw [hec.1, hec.2]
          exact List.mem_cons_self _ _
        rw [if_pos hec, if_pos hin, hec.1, hec.2]
      · have hnin : (x, y) ∉ (c1, c2) :: cs := by
          intro hin
          rcases List.mem_cons.mp hin with he | hm
          · exact hec ⟨congrArg Prod.fst he, congrArg Prod.snd he⟩
          · exact hmem hm
        rw [if_neg hec, if_neg hnin]

lemma revertCells_pixel (g : Image) :
    ∀ (cells : List (Nat × Nat)) (X : Image) (x y : Nat),
      (revertCells X (cells.map (fun c => (c, g.pixel c.1 c.2)))).pixel x y
        = if (x, y) ∈ cells then g.pixel x y else X.pixel x y := by
  intro cells
  induction cells with
  | nil => intro X x y; simp [revertCells]
  | cons c cs ih =>
    obtain ⟨c1, c2⟩ := c
    intro X x y
    show (revertCells (setPixel X c1 c2 (g.pixel c1 c2))
      (cs.map (fun c => (c, g.pixel c.1 c.2)))).pixel x y = _
    rw [ih]
    by_cases hmem : (x, y) ∈ cs
    · rw [if_pos hmem, if_pos (List.mem_cons_of_mem (c1, c2) hmem)]
    · rw [if_neg hmem, setPixel_pixel]
      by_cases hec : x = c1 ∧ y = c2
      · have hin : (x, y) ∈ (c1, c2) :: cs := by
          rw [hec.1, hec.2]
          exact List.mem_cons_self _ _
        rw [if_pos hec, if_pos hin, hec.1, hec.2]
      · have hnin : (x, y) ∉ (c1, c2) :: cs := by
          intro hin
          rcases List.mem_cons.mp hin with he | hm
          · exact hec ⟨congrArg Prod.fst he, congrArg Prod.snd he⟩
          · exact hmem hm
        rw [if_neg hec, if_neg hnin]

lemma mem_allCells {w h : Nat} {c : Nat × Nat} :
    c ∈ allCells w h ↔ c.1 < w ∧ c.2 < h := by
  obtain ⟨cx, cy⟩ := c
  unfold allCells
  constructor
  · intro hin
    rcases List.mem_flatMap.mp hin with ⟨y, hy, hrow⟩
    rcases List.mem_map.mp hrow with ⟨x, hx, he⟩
    have hx' : x = cx := congrArg Prod.fst he
    have hy' : y = cy := congrArg Prod.snd he
    rw [← hx', ← hy']
    exact ⟨List.mem_range.mp hx, List.mem_range.mp hy⟩
  · intro hc
    exact List.mem_flatMap.mpr ⟨cy, List.mem_range.mpr hc.2,
      List.mem_map.mpr ⟨cx, List.mem_range.mpr hc.1, rfl⟩⟩

lemma allCells_nodup (w h : Nat) : (allCells w h).Nodup := by
  unfold allCells
  rw [List.nodup_flatMap]
  constructor
  · intro y _
    exact (List.nodup_range w).map (fun a b hab => (Prod.mk.inj hab).1)
  · apply List.Pairwise.imp ?_ (List.pairwise_lt_range h)
    intro a b hab p hpa hpb
    rcases List.mem_map.mp hpa with ⟨x1, _, he1⟩
    rcases List.mem_map.mp hpb with ⟨x2, _, he2⟩
    have h1 : p.2 = a := by rw [← he1]
    have h2 : p.2 = b := by rw [← he2]
    omega

lemma diskCells_nodup (g : Image) (patch : Patch) : (diskCells g patch).Nodup :=
  (allCells_nodup g.width g.height).filter _

lemma mem_diskCells {g : Image} {patch : Patch} {c : Nat × Nat} :
    c ∈ diskCells g patch
      ↔ c ∈ allCells g.width g.height ∧ inDisk patch c.1 c.2 = true :=
  List.mem_filter

lemma map_congr_mem {α β : Type} {f g : α → β} :
    ∀ {l : List α}, (∀ a ∈ l, f a = g a) → l.map f = l.map g := by
  intro l
  induction l with
  | nil => intro _; rfl
  | cons a l ih =>
    intro hall
    rw [List.map_cons, List.map_cons, hall a (List.mem_cons_self a l),
      ih (fun b hb => hall b (List.mem_cons_of_mem a hb))]

lemma sum_map_add_int {α : Type} (f g : α → ℤ) :
    ∀ l : List α, (l.map (fun a => f a + g a)).sum = (l.map f).sum + (l.map g).sum := by
  intro l
  induction l with
  | nil => rfl
  | cons a l ih =>
    simp only [List.map_cons, List.sum_cons, ih]
    ring

lemma sum_map_sub_int {α : Type} (f g : α → ℤ) :
    ∀ l : List α, (l.map (fun a => f a - g a)).sum = (l.map f).sum - (l.map g).sum := by
  intro l
  induction l with
  | nil => rfl
  | cons a l ih =>
    simp only [List.map_cons, List.sum_cons, ih]
    ring

lemma sum_map_filter_ite {α : Type} (p : α → Bool) (f : α → ℤ) :
    ∀ l : List α,
      ((l.filter p).map f).sum = (l.map (fun a => if p a then f a else 0)).sum := by
  intro l
  induction l with
  | nil => rfl
  | cons a l ih =>
    by_cases hpa : p a = true
    · simp only [List.filter_cons, hpa, if_true, List.map_cons, List.sum_cons, ih]
    · simp only [List.filter_cons, hpa, if_false, List.map_cons, List.sum_cons, ih]
      simpa using ih

lemma errorOn_paintDisk_disk (g target : Image) (patch : Patch) :
    errorOn (paintDisk g patch (diskCells g patch)) target (diskCells g patch)
      = ((diskCells g patch).map (fun c =>
          colorDiff (blendColor patch.color (g.pixel c.1 c.2))
            (target.pixel c.1 c.2))).sum := by
  unfold errorOn
  congr 1
  apply map_congr_mem
  intro c hc
  rw [paintDisk_pixel patch (diskCells g patch) (diskCells_nodup g patch) g c.1 c.2,
    if_pos hc]

lemma fullError_paintDisk (g target : Image) (patch : Patch) :
    fullError (paintDisk g patch (diskCells g patch)) target
      = fullError g target
        + (errorOn (paintDisk g patch (diskCells g patch)) target (diskCells g patch)
           - errorOn g target (diskCells g patch)) := by
  have hB : errorOn (paintDisk g patch (diskCells g patch)) target
      (allCells g.width g.height)
      = ((allCells g.width g.height).map (fun c =>
          if inDisk patch c.1 c.2
          then colorDiff (blendColor patch.color (g.pixel c.1 c.2)) (target.pixel c.1 c.2)
          else colorDiff (g.pixel c.1 c.2) (target.pixel c.1 c.2))).sum := by
    unfold errorOn
    congr 1
    apply map_congr_mem
    intro c hc
    rw [paintDisk_pixel patch (diskCells g patch) (diskCells_nodup g patch) g c.1 c.2]
    by_cases hmem : (c.1, c.2) ∈ diskCells g patch
    · rw [if_pos hmem, if_pos (mem_diskCells.mp hmem).2]
    · have hd : ¬(inDisk patch c.1 c.2 = true) := fun hd =>
        hmem (mem_diskCells.mpr ⟨hc, hd⟩)
      rw [if_neg hmem, if_neg hd]
  have hC : ((allCells g.width g.height).map (fun c =>
        if inDisk patch c.1 c.2
        then colorDiff (blendColor patch.color (g.pixel c.1 c.2)) (target.pixel c.1 c.2)
        else colorDiff (g.pixel c.1 c.2) (target.pixel c.1 c.2))).sum
      = ((allCells g.width g.height).map (fun c =>
          (if inDisk patch c.1 c.2
           then colorDiff (blendColor patch.color (g.pixel c.1 c.2)) (target.pixel c.1 c.2)
                - colorDiff (g.pixel c.1 c.2) (target.pixel c.1 c.2)
           else 0)
          + colorDiff (g.pixel c.1 c.2) (target.pixel c.1 c.2))).sum := by
    congr 1
    apply map_congr_mem
    intro c _
    by_cases hd : inDisk patch c.1 c.2 = true
    · rw [if_pos hd, if_pos hd]
      ring
    · rw [if_neg hd, if_neg hd]
      ring
  have hD := sum_map_add_int
    (fun c : Nat × Nat =>
      if inDisk patch c.1 c.2
      then colorDiff (blendColor patch.color (g.pixel c.1 c.2)) (target.pixel c.1 c.2)
           - colorDiff (g.pixel c.1 c.2) (target.pixel c.1 c.2)
      else 0)
    (fun c : Nat × Nat => colorDiff (g.pixel c.1 c.2) (target.pixel c.1 c.2))
    (allCells g.width g.height)
  have hE := sum_map_filter_ite (fun c : Nat × Nat => inDisk patch c.1 c.2)
    (fun c : Nat × Nat =>
      colorDiff (blendColor patch.color (g.pixel c.1 c.2)) (target.pixel c.1 c.2)
      - colorDiff (g.pixel c.1 c.2) (target.pixel c.1 c.2))
    (allCells g.width g.height)
  have hdc : (allCells g.width g.height).filter (fun c => inDisk patch c.1 c.2)
      = diskCells g patch := rfl
  have hF := sum_map_sub_int
    (fun c : Nat × Nat =>
      colorDiff (blendColor patch.color (g.pixel c.1 c.2)) (target.pixel c.1 c.2))
    (fun c : Nat × Nat => colorDiff (g.pixel c.1 c.2) (target.pixel c.1 c.2))
    (diskCells g patch)
  have hG := errorOn_paintDisk_disk g target patch
  unfold fullError
  rw [paintDisk_width, paintDisk_height, hB, hC, hD, ← hE, hdc, hF, hG]
  unfold errorOn
  ring

/-- C1: after every single `step()` iteration of the Mutation Optimizer, the
sum of squared-channel color error between the working grid and the target
grid, taken over the full grid, is less than or equal to its value before the
iteration — for every initial working grid, every target grid, and every
candidate patch (position, radius, color).  The optimizer is modelled from the
spec (§4.1): an accepted patch strictly decreases the error on its disk and
leaves all other cells untouched, and a rejected patch is fully reverted. -/
theorem mutation_step_error_nonincreasing (g target : Image) (patch : Patch) :
    fullError (optStep g target patch) target ≤ fullError g target := by
  unfold optStep
  split
  · rename_i hlt
    rw [fullError_paintDisk g target patch]
    linarith
  · rename_i hge
    apply le_of_eq
    unfold fullError
    rw [revertCells_width, revertCells_height, paintDisk_width, paintDisk_height]
    unfold errorOn
    congr 1
    apply map_congr_mem
    intro c _
    have hrev := revertCells_pixel g (diskCells g patch)
      (paintDisk g patch (diskCells g patch)) c.1 c.2
    rw [hrev]
    by_cases hmem : (c.1, c.2) ∈ diskCells g patch
    · rw [if_pos hmem]
    · rw [if_neg hmem,
        paintDisk_pixel patch (diskCells g patch) (diskCells_nodup g patch) g c.1 c.2,
        if_neg hmem]
